import Mathlib

/-!
Shallow embedding of the core rendering utilities of this repository
(`src/emu/rendutil.cpp`): the three fixed-point resamplers and their
dispatcher, the Cohen–Sutherland line clipper, the line-to-quad
converter, the PNG alpha-overlay copier, the image-format sniffer and
the buffered source and error path of the JPEG adapter.

Machine integers (`u32`/`u64`) are embedded as `Nat`; 32-bit wraparound
is written explicitly (`% 2 ^ 32`) at the places where the `u32`
arithmetic of the source can overflow and the scope of a claim reaches it.  Pixel
arrays are embedded as flat index functions `Nat → Nat`, matching the
flat `u32 *` pointers of the source, with an explicit row stride.
-/

namespace Rendutil

/-- Truncation to an unsigned 32-bit value, the embedding of a C++ `u32`
conversion. -/
def u32 (n : Nat) : Nat := n % 2 ^ 32

/-- Round-to-nearest-even of a natural number to 24 significant bits: the
value of the IEEE binary32 conversion `float(n)` for `n < 2 ^ 64` (integers
below `2 ^ 24` convert exactly; larger ones keep a 24-bit mantissa, ties
going to the even mantissa). -/
def f32_round (n : Nat) : Nat :=
  if n < 2 ^ 24 then n
  else
    let e := ((List.range 64).filter (fun i => 2 ^ i ≤ n)).foldl max 0
    let s := e - 23
    let m0 := n / 2 ^ s
    let r := n % 2 ^ s
    let m := if 2 ^ s < 2 * r then m0 + 1
      else if 2 * r < 2 ^ s then m0
      else if m0 % 2 = 0 then m0 else m0 + 1
    m * 2 ^ s

/-- The binade of the exact quotient `a / b`, offset by 64: the largest
`i ≤ 128` with `b * 2 ^ i ≤ a * 2 ^ 64`, which is `64 + floor(log2 (a / b))`
for `a, b ≥ 1` in the 64-bit range (a bounded search keeps the definition
kernel-reducible). -/
def f32_exp_search (a b : Nat) : Nat :=
  ((List.range 129).filter (fun i => b * 2 ^ i ≤ a * 2 ^ 64)).foldl max 0

/-- Round-to-nearest-even of the exact quotient `num / den` to an integer
mantissa (ties to even). -/
def f32_rne_div_m (num den : Nat) : Nat :=
  let m0 := num / den
  let r := num % den
  if den < 2 * r then m0 + 1
  else if 2 * r < den then m0
  else if m0 % 2 = 0 then m0 else m0 + 1

/-- The embedding of `ceil(float(a) / float(b))` in IEEE binary32 arithmetic
for an `a` that is exactly representable (every `u32(swidth << 12)` is: its
mantissa is `swidth mod 2 ^ 20`, under 24 bits): the divisor is first
converted to float (`f32_round`), the quotient is scaled into the binade
found by `f32_exp_search` so the mantissa has exactly 24 bits, rounded to
nearest even (`f32_rne_div_m`), and the ceiling of the resulting dyadic
value `m * 2 ^ (e64 - 87)` is taken, exactly as `ceilf` does on the float
result.  Division by zero falls back to 0 (the dispatcher never reaches it:
a zero destination size returns early). -/
def float_ceil_div (a b : Nat) : Nat :=
  if a = 0 ∨ b = 0 then 0
  else
    let rb := f32_round b
    let e64 := f32_exp_search a rb
    let m := if e64 ≤ 87 then f32_rne_div_m (a * 2 ^ (87 - e64)) rb
      else f32_rne_div_m a (rb * 2 ^ (e64 - 87))
    if e64 ≤ 87 then (m + 2 ^ (87 - e64) - 1) / 2 ^ (87 - e64)
    else m * 2 ^ (e64 - 87)

/-- Alpha accessor of a packed A8R8G8B8 pixel (spec data model: 32-bit packed
quadruple with alpha in the top byte; `rgb_t::a()` in the utility
library of the repository). -/
def rgba_a (p : Nat) : Nat := (p >>> 24) &&& 0xff

/-- Red accessor of a packed A8R8G8B8 pixel. -/
def rgba_r (p : Nat) : Nat := (p >>> 16) &&& 0xff

/-- Green accessor of a packed A8R8G8B8 pixel. -/
def rgba_g (p : Nat) : Nat := (p >>> 8) &&& 0xff

/-- Blue accessor of a packed A8R8G8B8 pixel. -/
def rgba_b (p : Nat) : Nat := p &&& 0xff

/-- Packing constructor `rgb_t(a, r, g, b)`: each argument is narrowed to a
byte (the constructor takes `u8` operands) and the four bytes are or-ed into
one 32-bit word. -/
def rgb_pack (a r g b : Nat) : Nat :=
  ((a % 256) <<< 24) ||| ((r % 256) <<< 16) ||| ((g % 256) <<< 8) ||| (b % 256)

/-- The premultiplied integer tint factors that every sampler computes once
per call from the floating-point `render_color`:
`r = color.r * color.a * 256.0f` (and likewise `g`, `b`), `a = color.a * 256.0f`.
The float-to-integer premultiplication itself is outside the fixed-point
core; the samplers are embedded over its integer result.  A fully opaque
colorless tint (r = g = b = a = 1.0) yields factors 256/256/256/256. -/
structure TintFactors where
  r : Nat
  g : Nat
  b : Nat
  a : Nat

/-- Body of the per-destination-pixel work of `resample_argb_bitmap_integer`
(rendutil.cpp lines 206-237): fetch one nearest source pixel, scale by the
premultiplied tint, blend with the destination when translucent, repack. -/
def integer_pixel (source : Nat → Nat) (srowpixels : Nat) (tf : TintFactors)
    (dx dy : Nat) (dest : Nat → Nat) (drowpixels : Nat) (x y : Nat) : Nat :=
  let cury := y * dy
  let curx := x * dx
  let pix := source ((cury >>> 12) * srowpixels + (curx >>> 12))
  let suma := rgba_a pix * tf.a / 256
  let sumr := rgba_r pix * tf.r / 256
  let sumg := rgba_g pix * tf.g / 256
  let sumb := rgba_b pix * tf.b / 256
  if tf.a < 256 then
    let dpix := dest (y * drowpixels + x)
    rgb_pack (suma + rgba_a dpix * (256 - tf.a)) (sumr + rgba_r dpix * (256 - tf.a))
      (sumg + rgba_g dpix * (256 - tf.a)) (sumb + rgba_b dpix * (256 - tf.a))
  else
    rgb_pack suma sumr sumg sumb

/-- `resample_argb_bitmap_integer` as a transformer of the flat destination
array: indices inside the written rectangle take the per-pixel value, all
other indices keep the previous destination contents.  (Faithful under the
bitmap stride invariant `dwidth ≤ drowpixels`.) -/
def resample_argb_bitmap_integer (dest : Nat → Nat) (drowpixels dwidth dheight : Nat)
    (source : Nat → Nat) (srowpixels swidth sheight : Nat) (tf : TintFactors)
    (dx dy : Nat) : Nat → Nat :=
  fun i =>
    let y := i / drowpixels
    let x := i % drowpixels
    if x < dwidth ∧ y < dheight then
      integer_pixel source srowpixels tf dx dy dest drowpixels x y
    else
      dest i

/-- The chunk decomposition performed by the inner loops of
`resample_argb_bitmap_average` (lines 273-304): starting at fixed-point
position `cur` with `rem` units remaining, each step contributes
`min (0x1000 - cur % 0x1000) rem` (one 4096-unit cell boundary at most,
clamped to the amount remaining) and advances.  Returns the list of
`(position, chunk)` pairs in visit order. -/
def chunks (cur rem : Nat) : List (Nat × Nat) :=
  if h : rem = 0 then []
  else
    let c := min (0x1000 - cur % 0x1000) rem
    (cur, c) :: chunks (cur + c) (rem - c)
termination_by rem
decreasing_by
  have h1 : 0 < 0x1000 - cur % 0x1000 := by
    have := Nat.mod_lt cur (show 0 < 0x1000 by norm_num)
    omega
  have h2 : 0 < min (0x1000 - cur % 0x1000) rem := lt_min h1 (Nat.pos_of_ne_zero h)
  omega

/-- The source cells visited for one destination pixel of the
weighted-average sampler: outer loop over Y chunks, inner loop over X
chunks; each visit records `((curx, cury), (xchunk, ychunk))`. -/
def avg_cells (startx starty dx dy : Nat) : List ((Nat × Nat) × (Nat × Nat)) :=
  (chunks starty dy).flatMap fun yc =>
    (chunks startx dx).map fun xc => ((xc.1, yc.1), (xc.2, yc.2))

/-- Body of the per-destination-pixel work of `resample_argb_bitmap_average`
(lines 259-325): accumulate `xchunk * ychunk`-weighted source channels over
all visited cells, normalize by `sumscale = dx * dy`, apply the tint, blend
when translucent, repack. -/
def average_pixel (source : Nat → Nat) (srowpixels : Nat) (tf : TintFactors)
    (dx dy : Nat) (dest : Nat → Nat) (drowpixels : Nat) (x y : Nat) : Nat :=
  let sumscale := dx * dy
  let cells := avg_cells (x * dx) (y * dy) dx dy
  let fetch := fun (c : (Nat × Nat) × (Nat × Nat)) =>
    source ((c.1.2 >>> 12) * srowpixels + (c.1.1 >>> 12))
  let sumr := (cells.map fun c => c.2.1 * c.2.2 * rgba_r (fetch c)).sum
  let sumg := (cells.map fun c => c.2.1 * c.2.2 * rgba_g (fetch c)).sum
  let sumb := (cells.map fun c => c.2.1 * c.2.2 * rgba_b (fetch c)).sum
  let suma := (cells.map fun c => c.2.1 * c.2.2 * rgba_a (fetch c)).sum
  let suma := suma / sumscale * tf.a / 256
  let sumr := sumr / sumscale * tf.r / 256
  let sumg := sumg / sumscale * tf.g / 256
  let sumb := sumb / sumscale * tf.b / 256
  if tf.a < 256 then
    let dpix := dest (y * drowpixels + x)
    rgb_pack (suma + rgba_a dpix * (256 - tf.a)) (sumr + rgba_r dpix * (256 - tf.a))
      (sumg + rgba_g dpix * (256 - tf.a)) (sumb + rgba_b dpix * (256 - tf.a))
  else
    rgb_pack suma sumr sumg sumb

/-- `resample_argb_bitmap_average` as a transformer of the flat destination
array. -/
def resample_argb_bitmap_average (dest : Nat → Nat) (drowpixels dwidth dheight : Nat)
    (source : Nat → Nat) (srowpixels swidth sheight : Nat) (tf : TintFactors)
    (dx dy : Nat) : Nat → Nat :=
  fun i =>
    let y := i / drowpixels
    let x := i % drowpixels
    if x < dwidth ∧ y < dheight then
      average_pixel source srowpixels tf dx dy dest drowpixels x y
    else
      dest i

/-- Body of the per-destination-pixel work of `resample_argb_bitmap_bilinear`
(lines 346-428).  The source computes `startx + dx/2 - 0x800` in `u32`, which
wraps below zero; the wrap and the `s32(...) >= 0` sign tests are embedded
explicitly (`v < 2 ^ 31` is the embedding of `s32(v) >= 0`). -/
def bilinear_pixel (source : Nat → Nat) (srowpixels swidth sheight : Nat)
    (tf : TintFactors) (dx dy : Nat) (dest : Nat → Nat) (drowpixels : Nat)
    (x y : Nat) : Nat :=
  let maxx := u32 (swidth <<< 12)
  let maxy := u32 (sheight <<< 12)
  let startx := x * dx
  let starty := y * dy
  let curx := u32 (u32 (startx + dx / 2) + 2 ^ 32 - 0x800)
  let cury := u32 (u32 (starty + dy / 2) + 2 ^ 32 - 0x800)
  let nextx := u32 (curx + 0x1000)
  let nexty := u32 (cury + 0x1000)
  let pix0 := if cury < 2 ^ 31 ∧ cury < maxy ∧ curx < 2 ^ 31 ∧ curx < maxx then
    source ((cury >>> 12) * srowpixels + (curx >>> 12)) else 0
  let pix1 := if cury < 2 ^ 31 ∧ cury < maxy ∧ nextx < 2 ^ 31 ∧ nextx < maxx then
    source ((cury >>> 12) * srowpixels + (nextx >>> 12)) else 0
  let pix2 := if nexty < 2 ^ 31 ∧ nexty < maxy ∧ curx < 2 ^ 31 ∧ curx < maxx then
    source ((nexty >>> 12) * srowpixels + (curx >>> 12)) else 0
  let pix3 := if nexty < 2 ^ 31 ∧ nexty < maxy ∧ nextx < 2 ^ 31 ∧ nextx < maxx then
    source ((nexty >>> 12) * srowpixels + (nextx >>> 12)) else 0
  let curx := curx &&& 0xfff
  let cury := cury &&& 0xfff
  let sumr := (0x1000 - curx) * (0x1000 - cury) * rgba_r pix0
    + curx * (0x1000 - cury) * rgba_r pix1
    + (0x1000 - curx) * cury * rgba_r pix2
    + curx * cury * rgba_r pix3
  let sumg := (0x1000 - curx) * (0x1000 - cury) * rgba_g pix0
    + curx * (0x1000 - cury) * rgba_g pix1
    + (0x1000 - curx) * cury * rgba_g pix2
    + curx * cury * rgba_g pix3
  let sumb := (0x1000 - curx) * (0x1000 - cury) * rgba_b pix0
    + curx * (0x1000 - cury) * rgba_b pix1
    + (0x1000 - curx) * cury * rgba_b pix2
    + curx * cury * rgba_b pix3
  let suma := (0x1000 - curx) * (0x1000 - cury) * rgba_a pix0
    + curx * (0x1000 - cury) * rgba_a pix1
    + (0x1000 - curx) * cury * rgba_a pix2
    + curx * cury * rgba_a pix3
  let suma := suma >>> 24 * tf.a / 256
  let sumr := sumr >>> 24 * tf.r / 256
  let sumg := sumg >>> 24 * tf.g / 256
  let sumb := sumb >>> 24 * tf.b / 256
  if tf.a < 256 then
    let dpix := dest (y * drowpixels + x)
    rgb_pack (suma + rgba_a dpix * (256 - tf.a)) (sumr + rgba_r dpix * (256 - tf.a))
      (sumg + rgba_g dpix * (256 - tf.a)) (sumb + rgba_b dpix * (256 - tf.a))
  else
    rgb_pack suma sumr sumg sumb

/-- `resample_argb_bitmap_bilinear` as a transformer of the flat destination
array. -/
def resample_argb_bitmap_bilinear (dest : Nat → Nat) (drowpixels dwidth dheight : Nat)
    (source : Nat → Nat) (srowpixels swidth sheight : Nat) (tf : TintFactors)
    (dx dy : Nat) : Nat → Nat :=
  fun i =>
    let y := i / drowpixels
    let x := i % drowpixels
    if x < dwidth ∧ y < dheight then
      bilinear_pixel source srowpixels swidth sheight tf dx dy dest drowpixels x y
    else
      dest i

/-- `render_resample_argb_bitmap_hq` (lines 157-186): no-op on a zero-sized
destination; compute the per-axis fixed-point steps (with the `u32`
wrap of `swidth << 12` made explicit); pick the weighted-average sampler when
either step exceeds 0x1000 or the force flag is set, otherwise recompute the
steps rounding up and pick the integer sampler on exact integer-multiple
sizes, the bilinear sampler otherwise.  The source rounds up via
`ceil(float(swidth << 12) / dwidth)` in single precision; this is embedded
faithfully by `float_ceil_div`, which models the binary32 conversion of the
divisor, the round-to-nearest-even division and the exact `ceilf` — the
result can be one below the exact rational ceiling when the quotient needs
more than 24 bits. -/
def render_resample_argb_bitmap_hq (dest : Nat → Nat)
    (drowpixels dwidth dheight : Nat) (source : Nat → Nat)
    (srowpixels swidth sheight : Nat) (tf : TintFactors) (force : Bool) :
    Nat → Nat :=
  if dwidth = 0 ∨ dheight = 0 then dest
  else
    let dx := u32 (swidth <<< 12) / dwidth
    let dy := u32 (sheight <<< 12) / dheight
    if dx > 0x1000 ∨ dy > 0x1000 ∨ force then
      resample_argb_bitmap_average dest drowpixels dwidth dheight source
        srowpixels swidth sheight tf dx dy
    else
      let dx := float_ceil_div (u32 (swidth <<< 12)) dwidth
      let dy := float_ceil_div (u32 (sheight <<< 12)) dheight
      if dwidth % swidth = 0 ∧ dheight % sheight = 0 then
        resample_argb_bitmap_integer dest drowpixels dwidth dheight source
          srowpixels swidth sheight tf dx dy
      else
        resample_argb_bitmap_bilinear dest drowpixels dwidth dheight source
          srowpixels swidth sheight tf dx dy

/-- `render_bounds`: four coordinates.  The source stores IEEE `float`s; the
clipper and line-to-quad converter are embedded over exact rationals, which
agree with the source on every comparison and on the exact-arithmetic content
of the claims below. -/
structure RBounds where
  x0 : ℚ
  y0 : ℚ
  x1 : ℚ
  y1 : ℚ
deriving DecidableEq

/-- The Cohen–Sutherland outcode computed for one endpoint by
`render_clip_line` (lines 446-464): bit 1 below the clip bottom, bit 2 above
the top, bit 4 right of the right edge, bit 8 left of the left edge. -/
def outcode (clip : RBounds) (x y : ℚ) : Nat :=
  (if y > clip.y1 then 1 else 0) |||
  (if y < clip.y0 then 2 else 0) |||
  (if x > clip.x1 then 4 else 0) |||
  (if x < clip.x0 then 8 else 0)

/-- `render_clip_line` (lines 437-517).  The unbounded `while` loop of the source
is embedded with explicit fuel; `none` means the fuel ran out (the two
terminal claims below hold for any positive fuel).  Returns the rejected
flag together with the (possibly updated) bounds. -/
def render_clip_line : Nat → RBounds → RBounds → Option (Bool × RBounds)
  | 0, _, _ => none
  | fuel + 1, bounds, clip =>
    let code0 := outcode clip bounds.x0 bounds.y0
    let code1 := outcode clip bounds.x1 bounds.y1
    if code0 ||| code1 = 0 then
      some (false, bounds)
    else if code0 &&& code1 ≠ 0 then
      some (true, bounds)
    else
      let thiscode := if code0 ≠ 0 then code0 else code1
      let xy : ℚ × ℚ :=
        if thiscode &&& 1 ≠ 0 then
          (bounds.x0 + (bounds.x1 - bounds.x0) * (clip.y1 - bounds.y0) / (bounds.y1 - bounds.y0),
           clip.y1)
        else if thiscode &&& 2 ≠ 0 then
          (bounds.x0 + (bounds.x1 - bounds.x0) * (clip.y0 - bounds.y0) / (bounds.y1 - bounds.y0),
           clip.y0)
        else if thiscode &&& 4 ≠ 0 then
          (clip.x1,
           bounds.y0 + (bounds.y1 - bounds.y0) * (clip.x1 - bounds.x0) / (bounds.x1 - bounds.x0))
        else
          (clip.x0,
           bounds.y0 + (bounds.y1 - bounds.y0) * (clip.x0 - bounds.x0) / (bounds.x1 - bounds.x0))
      if thiscode = code0 then
        render_clip_line fuel { bounds with x0 := xy.1, y0 := xy.2 } clip
      else
        render_clip_line fuel { bounds with x1 := xy.1, y1 := xy.2 } clip

/-- `render_line_to_quad` (lines 604-702).  The non-degenerate branch divides
by `sqrtf(...)`, which has no rational counterpart, so the square root is a
function parameter (the degenerate branch, the subject of the claim below,
never invokes it).  The literal `0.70710678f` is embedded as the decimal
rational it is written as in the source. -/
def render_line_to_quad (sqrtf : ℚ → ℚ) (bounds : RBounds)
    (width length_extension : ℚ) : RBounds × RBounds :=
  let half_width := width * 0.5
  let ux0 := bounds.x1 - bounds.x0
  let uy0 := bounds.y1 - bounds.y0
  let step : ℚ × ℚ × RBounds :=
    if ux0 = 0 ∧ uy0 = 0 then
      let unit_length : ℚ := 0.70710678
      let u := unit_length * half_width
      (u, u, ⟨bounds.x0 - u, bounds.y0 - u, bounds.x1 + u, bounds.y1 + u⟩)
    else
      let length := sqrtf (ux0 * ux0 + uy0 * uy0)
      let modbounds :=
        if length_extension > 0 then
          let hle := length_extension * 0.5
          let dirx := ux0 / length
          let diry := uy0 / length
          (⟨bounds.x0 - dirx * hle, bounds.y0 - diry * hle,
            bounds.x1 + dirx * hle, bounds.y1 + diry * hle⟩ : RBounds)
        else bounds
      let invlength := half_width / length
      (ux0 * invlength, uy0 * invlength, modbounds)
  let unitx := step.1
  let unity := step.2.1
  let mb := step.2.2
  (⟨mb.x0 - unity, mb.y0 + unitx, mb.x0 + unity, mb.y0 - unitx⟩,
   ⟨mb.x1 - unity, mb.y1 + unitx, mb.x1 + unity, mb.y1 - unitx⟩)

/-- Squared Euclidean distance between two points, used to state the
line-to-quad corner claims without a square root. -/
def sqDist (px py qx qy : ℚ) : ℚ := (px - qx) ^ 2 + (py - qy) ^ 2

/-- Modelled from the spec: `rgb_t::brightness()` lives in the utility
library of the repository (not among the supplied sources); the spec describes the
alpha-overlay loader as "deriving an alpha channel from the source pixels".
It is the standard Rec. 709-style integer luma used by the repository:
a weighted average of the byte channels with weights 222/707/71 out of 1000
(note 222 + 707 + 71 = 1000, so bytes map to bytes). -/
def brightness (r g b : Nat) : Nat := (r * 222 + g * 707 + b * 71) / 1000

/-- The adam7 interlace table `x_bias` of `copy_png_alpha_to_bitmap`
(line 885). -/
def x_bias (pass : Nat) : Nat := [7, 3, 3, 1, 1, 0, 0].getD pass 0

/-- The adam7 interlace table `y_bias` (line 886). -/
def y_bias (pass : Nat) : Nat := [7, 7, 3, 3, 1, 1, 0].getD pass 0

/-- The adam7 interlace table `x_shift` (line 887). -/
def x_shift (pass : Nat) : Nat := [3, 3, 2, 2, 1, 1, 0].getD pass 0

/-- The adam7 interlace table `y_shift` (line 888). -/
def y_shift (pass : Nat) : Nat := [3, 3, 3, 2, 2, 1, 1].getD pass 0

/-- The width of one interlace pass (line 895): the full width when not
interlaced, else `(width + x_bias[pass]) >> x_shift[pass]`. -/
def pass_width (interlace : Bool) (width pass : Nat) : Nat :=
  if interlace then (width + x_bias pass) >>> x_shift pass else width

/-- The height of one interlace pass (line 896). -/
def pass_height (interlace : Bool) (height pass : Nat) : Nat :=
  if interlace then (height + y_bias pass) >>> y_shift pass else height

/-- The row byte count of one pass for color type 6 at bit depth 8
(line 897, with `samples[6] = 4`): `((width * 4 * 8) + 7) >> 3`. -/
def pass_rowbytes (width_p : Nat) : Nat := (width_p * 4 * 8 + 7) >>> 3

/-- The byte offset at which a pass starts in the image buffer (lines
891-898): each earlier pass advances by `height * (rowbytes + 1)` (one
filter byte per row). -/
def pass_offset (interlace : Bool) (width height : Nat) : Nat → Nat
  | 0 => 0
  | p + 1 =>
    pass_offset interlace width height p +
      pass_height interlace height p *
        (pass_rowbytes (pass_width interlace width p) + 1)

/-- The derived alpha of pixel `(x, y)` of one interlace pass in the
`copy_png_alpha_to_bitmap` 32bpp-alpha branch (color type 6, lines 961-975):
`src` starts at the pass offset and advances 4 bytes per pixel, and the
alpha is the brightness of the R, G, B bytes of the pixel — the source
alpha byte at offset `base + 3` is not consulted. -/
def png_rgba_derived_alpha (image : Nat → Nat) (interlace : Bool)
    (width height pass x y : Nat) : Nat :=
  let base := pass_offset interlace width height pass +
    4 * (y * pass_width interlace width pass + x)
  brightness (image base % 256) (image (base + 1) % 256) (image (base + 2) % 256)

/-- `copy_png_alpha_to_bitmap` restricted to color type 6 (RGB + alpha,
8-bit), lines 876-980, both interlace modes: one pass when
`interlace_method` is 0, the seven adam7 passes otherwise; within each pass
fold `accumalpha` (starting at 0xff) with bitwise AND of the derived alpha
of each pixel over the rows in visit order, and report `hasAlpha` as
`accumalpha != 0xff`.  The per-pixel destination writes (through
`x_trans`/`y_trans` when interlaced) do not feed back into the accumulator
and are omitted. -/
def copy_png_alpha_rgba (image : Nat → Nat) (interlace : Bool)
    (width height : Nat) : Bool :=
  let pass_count := if interlace then 7 else 1
  let accumalpha :=
    (List.range pass_count).foldl
      (fun acc pass =>
        (List.range (pass_height interlace height pass)).foldl
          (fun acc y =>
            (List.range (pass_width interlace width pass)).foldl
              (fun acc x =>
                acc &&& png_rgba_derived_alpha image interlace width height pass x y)
              acc)
          acc)
      0xff
  accumalpha != 0xff

/-- The format tags returned by `render_detect_image` (`ru_imgformat`). -/
inductive RuImgformat where
  | png
  | jpeg
  | msdib
  | unknown
deriving DecidableEq

/-- The oracle outcomes of the three external header probes used by
`render_detect_image`: whether each external check succeeds, and the stream
position each probe leaves behind before the own `seek(0)` of the sniffer
(the probes read from the stream; their internals are external library
code). -/
structure ProbeEnv where
  pngOk : Bool
  jpegOk : Bool
  dibOk : Bool
  pngPos : Nat
  jpegPos : Nat
  dibPos : Nat

/-- `render_detect_image` (lines 987-1028) over the probe oracle: run the
PNG probe, seek back to 0, return PNG on success; otherwise run the JPEG
header probe (a failure is the longjmp path `notjpeg`, which also destroys
the decoder and seeks back to 0); otherwise the DIB probe; otherwise
Unknown.  Returns the tag together with the final stream position. -/
def render_detect_image (env : ProbeEnv) (pos : Nat) : RuImgformat × Nat :=
  let pos := env.pngPos
  let pos := 0
  if env.pngOk then (.png, pos)
  else
    if env.jpegOk then
      let pos := env.jpegPos
      let pos := 0
      (.jpeg, pos)
    else
      let pos := env.jpegPos
      let pos := 0
      let pos := env.dibPos
      let pos := 0
      if env.dibOk then (.msdib, pos) else (.unknown, pos)

/-- The one libjpeg error code raised directly by the buffered source
(`JERR_INPUT_EMPTY`). -/
inductive JpegErr where
  | inputEmpty
deriving DecidableEq

/-- The observable result of a successful `do_fill`: the bytes made
available, the warning flag (`JWRN_JPEG_EOF`), and the updated
`start_of_file` marker (always cleared). -/
structure FillResult where
  buffer : List Nat
  bytes_in_buffer : Nat
  warned : Bool
  start_of_file : Bool
deriving DecidableEq

/-- `jpeg_corefile_source::do_fill` (lines 40-62): `readBytes` is what the
`read` call of the stream returned.  Zero bytes on the very first refill is the fatal
`ERREXIT(JERR_INPUT_EMPTY)`; zero bytes later synthesizes the two-byte
end-of-image marker `FF D9` with a warning; otherwise the read bytes are
handed over unchanged. -/
def do_fill (start_of_file : Bool) (readBytes : List Nat) :
    Except JpegErr FillResult :=
  if readBytes.length = 0 then
    if start_of_file then .error .inputEmpty
    else .ok { buffer := [0xff, 0xd9], bytes_in_buffer := 2, warned := true,
               start_of_file := false }
  else
    .ok { buffer := readBytes, bytes_in_buffer := readBytes.length,
          warned := false, start_of_file := false }

/-- A destination bitmap reduced to its dimensions; `reset()` produces the
empty (invalid) bitmap. -/
structure JBitmap where
  width : Nat
  height : Nat
deriving DecidableEq

/-- The empty bitmap left behind by `bitmap.reset()`. -/
def JBitmap.empty : JBitmap := ⟨0, 0⟩

/-- Modelled from the spec: the external compressed-format decoder pulls its
first input through the refill callback during the header read (the spec text
"an initializer (marks start of stream), a refill callback ..."); libjpeg
itself is not among the supplied sources.  A fatal error from that first
fill propagates as the abrupt decoder error; otherwise decoding continues
with the oracle outcome `rest`. -/
def jpeg_decode_with_source (firstRead : List Nat)
    (rest : Except JpegErr JBitmap) : Except JpegErr JBitmap :=
  match do_fill true firstRead with
  | .error e => .error e
  | .ok _ => rest

/-- The bitmap left in the hands of the caller by `render_load_jpeg`
(lines 730-813) as a function of the decode outcome: the setjmp recovery
point resets the bitmap to empty on any decoder error, a successful decode
hands the decoded bitmap over. -/
def render_load_jpeg_result (firstRead : List Nat)
    (rest : Except JpegErr JBitmap) : JBitmap :=
  match jpeg_decode_with_source firstRead rest with
  | .error _ => JBitmap.empty
  | .ok b => b

/-- The call sites inside `render_load_jpeg` at which the external decoder
can take the abrupt error exit (longjmp to the registered recovery point). -/
inductive JpegFailSite where
  | createDecompress
  | readHeader
  | startDecompress
  | readScanlines
  | finishDecompress
deriving DecidableEq

/-- Oracle describing one run of the external decoder inside
`render_load_jpeg`: at most one call site takes the abrupt exit, and the
header reports the given dimensions and component count. -/
structure JpegDecoder where
  failAt : Option JpegFailSite
  width : Nat
  height : Nat
  comps : Nat
  message : String

/-- Everything observable about one `render_load_jpeg` call: the final
bitmap, whether the decoder state was destroyed, the allocation/free status
of the two `malloc`s backing the scanline scratch buffer, the captured
diagnostic of the abrupt path, and whether control returned normally. -/
structure JpegOutcome where
  bitmap : JBitmap
  decoderReleased : Bool
  outerAllocated : Bool
  outerFreed : Bool
  innerAllocated : Bool
  innerFreed : Bool
  diagnostic : Option String
  returnedNormally : Bool
deriving DecidableEq

/-- The abrupt exit path of `render_load_jpeg` (lines 741-748 plus the
common cleanup at 805-813): capture a diagnostic via `format_message`,
reset the bitmap, fall into the cleanup that destroys the decoder and frees
whichever scratch allocations exist, then return normally. -/
def jpeg_abrupt_exit (msg : String) (outerAlloc innerAlloc : Bool) : JpegOutcome :=
  { bitmap := JBitmap.empty
    decoderReleased := true
    outerAllocated := outerAlloc
    outerFreed := outerAlloc
    innerAllocated := innerAlloc
    innerFreed := innerAlloc
    diagnostic := some msg
    returnedNormally := true }

/-- `render_load_jpeg` (lines 730-813) over the decoder oracle, tracking
control flow and resources: create/source/header/start may each take the
abrupt exit before any scratch allocation; then the bitmap and the two
scanline-buffer `malloc`s are attempted; the scanline loop runs only when
the bitmap and both allocations succeeded and may take the abrupt exit; an
unsupported component count resets the bitmap and breaks; the allocation
failure path resets the bitmap; `jpeg_finish_decompress` may take the
abrupt exit; finally the common cleanup destroys the decoder and frees the
scratch buffer. -/
def render_load_jpeg_model (dec : JpegDecoder)
    (bitmapAllocOk outerOk innerOk : Bool) : JpegOutcome :=
  if dec.failAt = some .createDecompress then jpeg_abrupt_exit dec.message false false
  else if dec.failAt = some .readHeader then jpeg_abrupt_exit dec.message false false
  else if dec.failAt = some .startDecompress then jpeg_abrupt_exit dec.message false false
  else
    let w := dec.width
    let h := dec.height
    let s := dec.comps
    let bmp : JBitmap := ⟨w, h⟩
    let bmpValid := bitmapAllocOk ∧ 0 < w ∧ 0 < h
    let outer := outerOk
    let inner := outer && innerOk
    if bmpValid ∧ outer ∧ inner then
      if dec.failAt = some .readScanlines ∧ 0 < h then
        jpeg_abrupt_exit dec.message outer inner
      else
        let bmp := if (s = 1 ∨ s = 3) ∨ h = 0 then bmp else JBitmap.empty
        if dec.failAt = some .finishDecompress then
          jpeg_abrupt_exit dec.message outer inner
        else
          { bitmap := bmp, decoderReleased := true,
            outerAllocated := outer, outerFreed := outer,
            innerAllocated := inner, innerFreed := inner,
            diagnostic := none, returnedNormally := true }
    else
      if dec.failAt = some .finishDecompress then
        jpeg_abrupt_exit dec.message outer inner
      else
        { bitmap := JBitmap.empty, decoderReleased := true,
          outerAllocated := outer, outerFreed := outer,
          innerAllocated := inner, innerFreed := inner,
          diagnostic := none, returnedNormally := true }

/-- The chunks visited from `cur` with `rem` remaining partition `rem`
exactly: the loop clamps each step to one 4096-unit cell boundary and to the
amount remaining, so the step sizes sum back to the amount. -/
theorem chunks_sum (cur rem : Nat) : ((chunks cur rem).map Prod.snd).sum = rem := by
  induction rem using Nat.strong_induction_on generalizing cur with
  | _ rem ih =>
    rw [chunks]
    split
    · simp [*]
    · rename_i h
      have hmod : cur % 0x1000 < 0x1000 := Nat.mod_lt cur (by norm_num)
      have hc : 0 < min (0x1000 - cur % 0x1000) rem := by omega
      have hlt : rem - min (0x1000 - cur % 0x1000) rem < rem := by omega
      simp only [List.map_cons, List.sum_cons, ih _ hlt]
      omega

/-- Every chunk visited from `cur` with `rem` remaining starts inside the
half-open interval from `cur` to `cur + rem`. -/
theorem chunks_mem_bounds (cur rem : Nat) :
    ∀ p ∈ chunks cur rem, cur ≤ p.1 ∧ p.1 < cur + rem := by
  induction rem using Nat.strong_induction_on generalizing cur with
  | _ rem ih =>
    rw [chunks]
    split
    · simp
    · rename_i h
      have hmod : cur % 0x1000 < 0x1000 := Nat.mod_lt cur (by norm_num)
      have hc : 0 < min (0x1000 - cur % 0x1000) rem := by omega
      have hlt : rem - min (0x1000 - cur % 0x1000) rem < rem := by omega
      intro p hp
      rcases List.mem_cons.mp hp with hp | hp
      · subst hp
        exact ⟨le_refl _, by omega⟩
      · have := ih _ hlt _ p hp
        omega

/-- Summing the per-cell factor `xchunk * ychunk` over the cell grid built
from two chunk lists multiplies the two chunk sums. -/
theorem cell_grid_factor_sum (ys xs : List (Nat × Nat)) :
    ((ys.flatMap fun yc => xs.map fun xc => ((xc.1, yc.1), (xc.2, yc.2))).map
        fun c => c.2.1 * c.2.2).sum =
      (xs.map Prod.snd).sum * (ys.map Prod.snd).sum := by
  induction ys with
  | nil => simp
  | cons yc ys ih =>
    simp only [List.flatMap_cons, List.map_append, List.sum_append, ih,
      List.map_map, List.map_cons, List.sum_cons]
    have hrow : ((xs.map fun xc => ((xc.1, yc.1), (xc.2, yc.2))).map
        fun c => c.2.1 * c.2.2).sum = (xs.map Prod.snd).sum * yc.2 := by
      rw [List.map_map]
      have : ((fun c : (Nat × Nat) × Nat × Nat => c.2.1 * c.2.2) ∘
          fun xc : Nat × Nat => ((xc.1, yc.1), (xc.2, yc.2))) =
          fun xc : Nat × Nat => xc.2 * yc.2 := rfl
      rw [this, List.sum_map_mul_right]
    rw [List.map_map] at hrow
    rw [hrow, Nat.mul_add]

/-- C3: in the weighted-average sampler, for every destination pixel
`(x, y)`, the per-cell contribution factors `xchunk * ychunk` over all
visited source cells sum to exactly `dx * dy` in exact integer
arithmetic. -/
theorem average_cells_area_conservation (dx dy x y : Nat) :
    ((avg_cells (x * dx) (y * dy) dx dy).map fun c => c.2.1 * c.2.2).sum =
      dx * dy := by
  rw [avg_cells, cell_grid_factor_sum, chunks_sum, chunks_sum]

/-- C10: with the steps the dispatcher hands to the weighted-average sampler
(`dx = u32(swidth << 12) / dwidth`, `dy = u32(sheight << 12) / dheight`),
every cell visited for any in-range destination pixel reads a source
coordinate whose integer part is inside the source grid: no access falls
outside `[0, swidth) × [0, sheight)`. -/
theorem average_cells_in_bounds (swidth sheight dwidth dheight x y : Nat)
    (hx : x < dwidth) (hy : y < dheight) :
    ∀ c ∈ avg_cells (x * (u32 (swidth <<< 12) / dwidth))
        (y * (u32 (sheight <<< 12) / dheight))
        (u32 (swidth <<< 12) / dwidth) (u32 (sheight <<< 12) / dheight),
      c.1.1 >>> 12 < swidth ∧ c.1.2 >>> 12 < sheight := by
  intro c hc
  have hxbound : ∀ w d z : Nat, z < d →
      ∀ q ∈ chunks (z * (u32 (w <<< 12) / d)) (u32 (w <<< 12) / d),
        q.1 >>> 12 < w := by
    intro w d z hz q hq
    have hb := chunks_mem_bounds _ _ q hq
    have h1 : z * (u32 (w <<< 12) / d) + u32 (w <<< 12) / d =
        (z + 1) * (u32 (w <<< 12) / d) := by ring
    have h2 : (z + 1) * (u32 (w <<< 12) / d) ≤ d * (u32 (w <<< 12) / d) :=
      Nat.mul_le_mul_right _ hz
    have h3 : d * (u32 (w <<< 12) / d) ≤ u32 (w <<< 12) := by
      rw [Nat.mul_comm]
      exact Nat.div_mul_le_self _ _
    have h4 : u32 (w <<< 12) ≤ w <<< 12 := Nat.mod_le _ _
    have h5 : w <<< 12 = w * 4096 := by
      rw [Nat.shiftLeft_eq]
    have h6 : q.1 < w * 4096 := by omega
    rw [Nat.shiftRight_eq_div_pow]
    have h7 : (2 : Nat) ^ 12 = 4096 := by norm_num
    rw [h7]
    omega
  rw [avg_cells] at hc
  rcases List.mem_flatMap.mp hc with ⟨yc, hyc, hcx⟩
  rcases List.mem_map.mp hcx with ⟨xc, hxc, hceq⟩
  subst hceq
  exact ⟨hxbound swidth dwidth x hx xc hxc, hxbound sheight dheight y hy yc hyc⟩

/-- C10 witness: shrinking a 2x2 source into a 1x1 destination
(`dx = dy = 8192`), every visited cell is inside the source grid. -/
theorem average_cells_in_bounds_witness :
    (0 < 1 ∧ 0 < 1) ∧
      ∀ c ∈ avg_cells (0 * (u32 (2 <<< 12) / 1)) (0 * (u32 (2 <<< 12) / 1))
          (u32 (2 <<< 12) / 1) (u32 (2 <<< 12) / 1),
        c.1.1 >>> 12 < 2 ∧ c.1.2 >>> 12 < 2 :=
  ⟨⟨by decide, by decide⟩,
    average_cells_in_bounds 2 2 1 1 0 0 (by decide) (by decide)⟩

/-- A byte mask is a power-of-two remainder. -/
theorem and_255_eq_mod (q : Nat) : q &&& 0xff = q % 2 ^ 8 := by
  have h : (0xff : Nat) = 2 ^ 8 - 1 := by norm_num
  rw [h]
  apply Nat.eq_of_testBit_eq
  intro i
  rw [Nat.testBit_and, Nat.testBit_mod_two_pow, Nat.testBit_two_pow_sub_one, Bool.and_comm]

/-- A packed pixel always fits in 32 bits. -/
theorem rgb_pack_lt (a r g b : Nat) : rgb_pack a r g b < 2 ^ 32 := by
  unfold rgb_pack
  have h1 : (a % 256) <<< 24 < 2 ^ 32 := by
    rw [Nat.shiftLeft_eq]
    have : a % 256 < 256 := Nat.mod_lt _ (by norm_num)
    omega
  have h2 : (r % 256) <<< 16 < 2 ^ 32 := by
    rw [Nat.shiftLeft_eq]
    have : r % 256 < 256 := Nat.mod_lt _ (by norm_num)
    omega
  have h3 : (g % 256) <<< 8 < 2 ^ 32 := by
    rw [Nat.shiftLeft_eq]
    have : g % 256 < 256 := Nat.mod_lt _ (by norm_num)
    omega
  have h4 : b % 256 < 2 ^ 32 := by
    have : b % 256 < 256 := Nat.mod_lt _ (by norm_num)
    omega
  exact Nat.or_lt_two_pow (Nat.or_lt_two_pow (Nat.or_lt_two_pow h1 h2) h3) h4

/-- Repacking the four extracted bytes of a 32-bit pixel gives the pixel
back. -/
theorem rgb_pack_unpack (p : Nat) (hp : p < 2 ^ 32) :
    rgb_pack (rgba_a p) (rgba_r p) (rgba_g p) (rgba_b p) = p := by
  apply Nat.eq_of_testBit_eq
  intro i
  rcases lt_or_ge i 32 with hi | hi
  · simp only [rgb_pack, rgba_a, rgba_r, rgba_g, rgba_b, and_255_eq_mod,
      show (256 : Nat) = 2 ^ 8 by norm_num,
      Nat.testBit_or, Nat.testBit_shiftLeft, Nat.testBit_mod_two_pow,
      Nat.testBit_shiftRight]
    interval_cases i <;> simp
  · have hrhs : p.testBit i = false :=
      Nat.testBit_eq_false_of_lt
        (lt_of_lt_of_le hp (Nat.pow_le_pow_right (by norm_num) hi))
    have hlhs : (rgb_pack (rgba_a p) (rgba_r p) (rgba_g p) (rgba_b p)).testBit i = false :=
      Nat.testBit_eq_false_of_lt
        (lt_of_lt_of_le (rgb_pack_lt _ _ _ _) (Nat.pow_le_pow_right (by norm_num) hi))
    rw [hrhs, hlhs]

/-- Unfolding the `u32` wrap of the fixed-point shift when it cannot
overflow. -/
theorem u32_shiftLeft12 (n : Nat) (hn : n * 4096 < 2 ^ 32) :
    u32 (n <<< 12) = n * 4096 := by
  rw [u32, Nat.shiftLeft_eq]
  have h : (2 : Nat) ^ 12 = 4096 := by norm_num
  rw [h]
  exact Nat.mod_eq_of_lt hn

/-- The start value bounds a fold of `max` from below. -/
theorem le_foldl_max (l : List Nat) (a : Nat) : a ≤ l.foldl max a := by
  induction l generalizing a with
  | nil => exact le_refl a
  | cons x l ih => exact le_trans (le_max_left a x) (ih (max a x))

/-- A fold of `max` is bounded by any common upper bound. -/
theorem foldl_max_le (l : List Nat) (a c : Nat) (ha : a ≤ c) (hl : ∀ x ∈ l, x ≤ c) :
    l.foldl max a ≤ c := by
  induction l generalizing a with
  | nil => exact ha
  | cons x l ih =>
    exact ih _ (max_le ha (hl x (List.mem_cons_self x l)))
      (fun y hy => hl y (List.mem_cons_of_mem x hy))

/-- Every list member bounds a fold of `max` from below. -/
theorem mem_le_foldl_max (l : List Nat) (a x : Nat) (hx : x ∈ l) : x ≤ l.foldl max a := by
  induction l generalizing a with
  | nil => cases hx
  | cons y l ih =>
    rcases List.mem_cons.mp hx with rfl | hx2
    · exact le_trans (le_max_right a x) (le_foldl_max l _)
    · exact ih _ hx2

/-- The exponent search returns `k` when the searched condition holds
exactly up to `k`. -/
theorem f32_exp_search_eq (a b k : Nat) (hk : k < 129)
    (hcond : ∀ i < 129, (b * 2 ^ i ≤ a * 2 ^ 64 ↔ i ≤ k)) :
    f32_exp_search a b = k := by
  rw [f32_exp_search]
  apply le_antisymm
  · apply foldl_max_le
    · omega
    · intro x hx
      rcases List.mem_filter.mp hx with ⟨hxr, hxp⟩
      have hxlt := List.mem_range.mp hxr
      exact (hcond x hxlt).mp (by simpa using hxp)
  · apply mem_le_foldl_max
    apply List.mem_filter.mpr
    exact ⟨List.mem_range.mpr hk, by simpa using (hcond k hk).mpr (le_refl k)⟩

/-- For the quotient of a size against itself times 4096 the binade search
lands on exponent 12 (offset 64 + 12 = 76). -/
theorem f32_exp_search_mul_self (n : Nat) (hn : 0 < n) :
    f32_exp_search (n * 4096) n = 76 := by
  apply f32_exp_search_eq _ _ 76 (by norm_num)
  intro i hi
  have h2 : n * 4096 * 2 ^ 64 = n * 2 ^ 76 := by
    rw [Nat.mul_assoc]
    norm_num
  rw [h2]
  constructor
  · intro h
    have h3 : (2 : Nat) ^ i ≤ 2 ^ 76 := Nat.le_of_mul_le_mul_left h hn
    exact (Nat.pow_le_pow_iff_right (by norm_num)).mp h3
  · intro h
    exact Nat.mul_le_mul_left n (Nat.pow_le_pow_right (by norm_num) h)

/-- Integers below `2 ^ 24` convert to float exactly. -/
theorem f32_round_small (n : Nat) (hn : n < 2 ^ 24) : f32_round n = n := by
  rw [f32_round, if_pos hn]

/-- The float step recompute of a size onto itself is exactly one cell: the
quotient is exactly 4096.0, so no rounding occurs and the ceiling is
4096. -/
theorem float_ceil_div_mul_self (n : Nat) (hn : 0 < n) (hn24 : n < 2 ^ 24) :
    float_ceil_div (n * 4096) n = 4096 := by
  rw [float_ceil_div, if_neg (by omega)]
  simp only [f32_round_small n hn24, f32_exp_search_mul_self n hn]
  have h76 : (76 : Nat) ≤ 87 := by norm_num
  rw [if_pos h76, if_pos h76, f32_rne_div_m]
  have hnum : n * 4096 * 2 ^ (87 - 76) = n * 2 ^ 23 := by
    rw [Nat.mul_assoc]
    norm_num
  simp only [hnum, Nat.mul_div_cancel_left _ hn, Nat.mul_mod_right]
  norm_num [hn]

/-- Dispatcher branch: when either step exceeds 0x1000 or the flag forces
it, `render_resample_argb_bitmap_hq` is the weighted-average sampler at the
originally computed steps. -/
theorem hq_average_branch (dest source : Nat → Nat) (drow dw dh srow sw sh : Nat)
    (tf : TintFactors) (force : Bool) (hdw : dw ≠ 0) (hdh : dh ≠ 0)
    (hsel : u32 (sw <<< 12) / dw > 0x1000 ∨ u32 (sh <<< 12) / dh > 0x1000 ∨ force = true) :
    render_resample_argb_bitmap_hq dest drow dw dh source srow sw sh tf force =
      resample_argb_bitmap_average dest drow dw dh source srow sw sh tf
        (u32 (sw <<< 12) / dw) (u32 (sh <<< 12) / dh) := by
  rw [render_resample_argb_bitmap_hq, if_neg (not_or.mpr ⟨hdw, hdh⟩)]
  simp only []
  rw [if_pos hsel]

/-- Dispatcher branch: otherwise, on exact integer-multiple sizes,
`render_resample_argb_bitmap_hq` is the integer sampler at the rounded-up
steps. -/
theorem hq_integer_branch (dest source : Nat → Nat) (drow dw dh srow sw sh : Nat)
    (tf : TintFactors) (force : Bool) (hdw : dw ≠ 0) (hdh : dh ≠ 0)
    (hsel : ¬(u32 (sw <<< 12) / dw > 0x1000 ∨ u32 (sh <<< 12) / dh > 0x1000 ∨ force = true))
    (hdiv : dw % sw = 0 ∧ dh % sh = 0) :
    render_resample_argb_bitmap_hq dest drow dw dh source srow sw sh tf force =
      resample_argb_bitmap_integer dest drow dw dh source srow sw sh tf
        (float_ceil_div (u32 (sw <<< 12)) dw) (float_ceil_div (u32 (sh <<< 12)) dh) := by
  rw [render_resample_argb_bitmap_hq, if_neg (not_or.mpr ⟨hdw, hdh⟩)]
  simp only []
  rw [if_neg hsel, if_pos hdiv]

/-- Dispatcher branch: otherwise `render_resample_argb_bitmap_hq` is the
bilinear sampler at the rounded-up steps. -/
theorem hq_bilinear_branch (dest source : Nat → Nat) (drow dw dh srow sw sh : Nat)
    (tf : TintFactors) (force : Bool) (hdw : dw ≠ 0) (hdh : dh ≠ 0)
    (hsel : ¬(u32 (sw <<< 12) / dw > 0x1000 ∨ u32 (sh <<< 12) / dh > 0x1000 ∨ force = true))
    (hdiv : ¬(dw % sw = 0 ∧ dh % sh = 0)) :
    render_resample_argb_bitmap_hq dest drow dw dh source srow sw sh tf force =
      resample_argb_bitmap_bilinear dest drow dw dh source srow sw sh tf
        (float_ceil_div (u32 (sw <<< 12)) dw) (float_ceil_div (u32 (sh <<< 12)) dh) := by
  rw [render_resample_argb_bitmap_hq, if_neg (not_or.mpr ⟨hdw, hdh⟩)]
  simp only []
  rw [if_neg hsel, if_neg hdiv]

/-- C2: resampling a bitmap onto a destination of exactly the same
dimensions with a fully opaque colorless tint (premultiplied factors all
256) is the identity transform: every destination pixel equals the
corresponding source pixel exactly.  Stated at the flat destination index
`y * drow + x` under the stride invariant `w ≤ drow` and the `u32`
representability of the fixed-point products. -/
theorem resample_hq_identity (dest source : Nat → Nat) (drow srow w h x y : Nat)
    (hx : x < w) (hy : y < h) (hwd : w ≤ drow)
    (hw32 : w * 4096 < 2 ^ 32) (hh32 : h * 4096 < 2 ^ 32)
    (hsrc : ∀ i, source i < 2 ^ 32) :
    render_resample_argb_bitmap_hq dest drow w h source srow w h
      ⟨256, 256, 256, 256⟩ false (y * drow + x) = source (y * srow + x) := by
  have hw : 0 < w := by omega
  have hh : 0 < h := by omega
  have hstep_w : u32 (w <<< 12) / w = 4096 := by
    rw [u32_shiftLeft12 w hw32, Nat.mul_div_cancel_left _ hw]
  have hstep_h : u32 (h <<< 12) / h = 4096 := by
    rw [u32_shiftLeft12 h hh32, Nat.mul_div_cancel_left _ hh]
  have hsel : ¬(u32 (w <<< 12) / w > 0x1000 ∨ u32 (h <<< 12) / h > 0x1000 ∨
      false = true) := by
    rw [hstep_w, hstep_h]
    simp
  rw [hq_integer_branch dest source drow w h srow w h ⟨256, 256, 256, 256⟩ false
      (by omega) (by omega) hsel ⟨Nat.mod_self w, Nat.mod_self h⟩]
  have hw24 : w < 2 ^ 24 := by omega
  have hh24 : h < 2 ^ 24 := by omega
  rw [u32_shiftLeft12 w hw32, u32_shiftLeft12 h hh32,
    float_ceil_div_mul_self w hw hw24, float_ceil_div_mul_self h hh hh24]
  rw [resample_argb_bitmap_integer]
  have hdrow : 0 < drow := lt_of_lt_of_le hw hwd
  have hxd : x < drow := lt_of_lt_of_le hx hwd
  have hidx1 : (y * drow + x) / drow = y := by
    rw [Nat.mul_comm y drow, Nat.mul_add_div hdrow, Nat.div_eq_of_lt hxd, Nat.add_zero]
  have hidx2 : (y * drow + x) % drow = x := by
    rw [Nat.mul_comm y drow, Nat.mul_add_mod, Nat.mod_eq_of_lt hxd]
  rw [hidx1, hidx2, if_pos ⟨hx, hy⟩]
  rw [integer_pixel]
  simp only []
  have hdiv12 : ∀ n : Nat, (n * 4096) >>> 12 = n := by
    intro n
    rw [Nat.shiftRight_eq_div_pow]
    have h : (2 : Nat) ^ 12 = 4096 := by norm_num
    rw [h]
    exact Nat.mul_div_cancel n (by norm_num)
  rw [hdiv12 y, hdiv12 x]
  have htf : ∀ v : Nat, v * 256 / 256 = v := fun v => Nat.mul_div_cancel v (by norm_num)
  rw [if_neg (by norm_num), htf, htf, htf, htf]
  exact rgb_pack_unpack _ (hsrc _)

/-- C2 witness: a concrete 1x1 resample of pixel value 0xdeadbeef onto an
equal-size destination reproduces the pixel. -/
theorem resample_hq_identity_witness :
    (0 < 1 ∧ 1 ≤ 1 ∧ 1 * 4096 < 2 ^ 32 ∧ ∀ i : Nat, (fun _ : Nat => 0xdeadbeef) i < 2 ^ 32) ∧
      render_resample_argb_bitmap_hq (fun _ => 0) 1 1 1 (fun _ => 0xdeadbeef) 1 1 1
        ⟨256, 256, 256, 256⟩ false (0 * 1 + 0) = (fun _ : Nat => 0xdeadbeef) (0 * 1 + 0) :=
  ⟨⟨by decide, by decide, by norm_num, fun _ => by norm_num⟩,
    resample_hq_identity (fun _ => 0) (fun _ => 0xdeadbeef) 1 1 1 1 0 0
      (by decide) (by decide) (by decide) (by norm_num) (by norm_num)
      (fun _ => by norm_num)⟩

set_option maxRecDepth 8192 in
/-- C1 counterexample: at swidth = 1048321, dwidth = 1048577 (sheight =
dheight = 1, force off) the dispatcher takes the non-average branch and
recomputes the horizontal step in single precision as 4095 — the quotient
4095 + 1/1048577 rounds to the float 4095.0, whose ceiling is 4095 — while
the exact rational ceiling is 4096, so the dispatcher result differs at
destination pixel 0 from the bilinear sampler fed with the exact ceilings
that the claim asserts. -/
theorem hq_ceiling_recompute_counterexample :
    (¬(1048321 * 4096 / 1048577 > 4096 ∨ 1 * 4096 / 1 > 4096 ∨ false = true)) ∧
    ¬(1048577 % 1048321 = 0 ∧ 1 % 1 = 0) ∧
    render_resample_argb_bitmap_hq (fun _ => 0) 1048577 1048577 1
        (fun _ => 0xffffffff) 1048321 1048321 1 ⟨256, 256, 256, 256⟩ false 0 ≠
      resample_argb_bitmap_bilinear (fun _ => 0) 1048577 1048577 1
        (fun _ => 0xffffffff) 1048321 1048321 1 ⟨256, 256, 256, 256⟩
        ((1048321 * 4096 + 1048577 - 1) / 1048577) ((1 * 4096 + 1 - 1) / 1) 0 := by
  refine ⟨by norm_num, by norm_num, by decide⟩

/-- C1 (amended): the dispatcher selects the weighted-average sampler
exactly when `dx = swidth*4096/dwidth` exceeds 4096 or
`dy = sheight*4096/dheight` exceeds 4096 or the force flag is set (handing
over those steps); otherwise it recomputes the steps as the ceiling of the
single-precision quotient (round-to-nearest-even float division, which can
be one below the exact ceiling) and selects the integer sampler exactly
when the destination dimensions are integer multiples of the source
dimensions, the bilinear sampler otherwise. -/
theorem hq_sampler_selection (dest source : Nat → Nat)
    (drow dw dh srow sw sh : Nat) (tf : TintFactors) (force : Bool)
    (hdw : 0 < dw) (hdh : 0 < dh)
    (hw32 : sw * 4096 < 2 ^ 32) (hh32 : sh * 4096 < 2 ^ 32) :
    (sw * 4096 / dw > 4096 ∨ sh * 4096 / dh > 4096 ∨ force = true →
      render_resample_argb_bitmap_hq dest drow dw dh source srow sw sh tf force =
        resample_argb_bitmap_average dest drow dw dh source srow sw sh tf
          (sw * 4096 / dw) (sh * 4096 / dh)) ∧
    (¬(sw * 4096 / dw > 4096 ∨ sh * 4096 / dh > 4096 ∨ force = true) →
      (dw % sw = 0 ∧ dh % sh = 0 →
        render_resample_argb_bitmap_hq dest drow dw dh source srow sw sh tf force =
          resample_argb_bitmap_integer dest drow dw dh source srow sw sh tf
            (float_ceil_div (sw * 4096) dw) (float_ceil_div (sh * 4096) dh)) ∧
      (¬(dw % sw = 0 ∧ dh % sh = 0) →
        render_resample_argb_bitmap_hq dest drow dw dh source srow sw sh tf force =
          resample_argb_bitmap_bilinear dest drow dw dh source srow sw sh tf
            (float_ceil_div (sw * 4096) dw) (float_ceil_div (sh * 4096) dh))) := by
  have hw : u32 (sw <<< 12) = sw * 4096 := u32_shiftLeft12 sw hw32
  have hh : u32 (sh <<< 12) = sh * 4096 := u32_shiftLeft12 sh hh32
  refine ⟨fun hsel => ?_, fun hsel => ⟨fun hdiv => ?_, fun hdiv => ?_⟩⟩
  · rw [hq_average_branch dest source drow dw dh srow sw sh tf force
      (by omega) (by omega) (by rw [hw, hh]; exact hsel), hw, hh]
  · rw [hq_integer_branch dest source drow dw dh srow sw sh tf force
      (by omega) (by omega) (by rw [hw, hh]; exact hsel) hdiv, hw, hh]
  · rw [hq_bilinear_branch dest source drow dw dh srow sw sh tf force
      (by omega) (by omega) (by rw [hw, hh]; exact hsel) hdiv, hw, hh]

/-- C1 witness: shrinking a 2x2 source into a 1x1 destination yields steps
8192 > 4096, so the dispatcher is the weighted-average sampler there. -/
theorem hq_sampler_selection_witness :
    ((0 : Nat) < 1 ∧ 2 * 4096 < 2 ^ 32 ∧
      (2 * 4096 / 1 > 4096 ∨ 2 * 4096 / 1 > 4096 ∨ false = true)) ∧
      render_resample_argb_bitmap_hq (fun _ => 0) 4 1 1 (fun _ => 0) 4 2 2
          ⟨256, 256, 256, 256⟩ false =
        resample_argb_bitmap_average (fun _ => 0) 4 1 1 (fun _ => 0) 4 2 2
          ⟨256, 256, 256, 256⟩ (2 * 4096 / 1) (2 * 4096 / 1) :=
  ⟨⟨by decide, by norm_num, Or.inl (by norm_num)⟩,
    (hq_sampler_selection (fun _ => 0) (fun _ => 0) 4 1 1 4 2 2
        ⟨256, 256, 256, 256⟩ false (by decide) (by decide) (by norm_num)
        (by norm_num)).1 (Or.inl (by norm_num))⟩

/-- A bitwise or vanishes only when both operands vanish. -/
theorem lor_eq_zero_parts (a b : Nat) (h : a ||| b = 0) : a = 0 ∧ b = 0 := by
  have hbit : ∀ i, a.testBit i = false ∧ b.testBit i = false := by
    intro i
    have h2 : (a ||| b).testBit i = false := by rw [h]; exact Nat.zero_testBit i
    rw [Nat.testBit_lor] at h2
    exact ⟨(Bool.or_eq_false_iff.mp h2).1, (Bool.or_eq_false_iff.mp h2).2⟩
  constructor
  · apply Nat.eq_of_testBit_eq
    intro i
    rw [(hbit i).1, Nat.zero_testBit]
  · apply Nat.eq_of_testBit_eq
    intro i
    rw [(hbit i).2, Nat.zero_testBit]

/-- A point inside the clip rectangle has outcode zero. -/
theorem outcode_eq_zero (clip : RBounds) (x y : ℚ)
    (h1 : clip.x0 ≤ x) (h2 : x ≤ clip.x1) (h3 : clip.y0 ≤ y) (h4 : y ≤ clip.y1) :
    outcode clip x y = 0 := by
  rw [outcode, if_neg (not_lt.mpr h4), if_neg (not_lt.mpr h3),
    if_neg (not_lt.mpr h2), if_neg (not_lt.mpr h1)]
  decide

/-- C4: a segment with both endpoints inside the clip rectangle is returned
"not rejected" with the bounds untouched (the very first outcode check
short-circuits), and a segment whose endpoint outcodes share a set bit is
returned "rejected" — for any positive loop fuel. -/
theorem clip_line_trivial_cases (fuel : Nat) (bounds clip : RBounds)
    (hfuel : 0 < fuel) :
    (clip.x0 ≤ bounds.x0 ∧ bounds.x0 ≤ clip.x1 ∧
     clip.y0 ≤ bounds.y0 ∧ bounds.y0 ≤ clip.y1 ∧
     clip.x0 ≤ bounds.x1 ∧ bounds.x1 ≤ clip.x1 ∧
     clip.y0 ≤ bounds.y1 ∧ bounds.y1 ≤ clip.y1 →
      render_clip_line fuel bounds clip = some (false, bounds)) ∧
    (outcode clip bounds.x0 bounds.y0 &&& outcode clip bounds.x1 bounds.y1 ≠ 0 →
      render_clip_line fuel bounds clip = some (true, bounds)) := by
  obtain ⟨n, rfl⟩ : ∃ n, fuel = n + 1 := ⟨fuel - 1, by omega⟩
  constructor
  · rintro ⟨i1, i2, i3, i4, i5, i6, i7, i8⟩
    have hc0 : outcode clip bounds.x0 bounds.y0 = 0 := outcode_eq_zero clip _ _ i1 i2 i3 i4
    have hc1 : outcode clip bounds.x1 bounds.y1 = 0 := outcode_eq_zero clip _ _ i5 i6 i7 i8
    rw [render_clip_line]
    simp only [hc0, hc1]
    rw [if_pos (show (0 : Nat) ||| 0 = 0 by decide)]
  · intro hshare
    have hor : outcode clip bounds.x0 bounds.y0 ||| outcode clip bounds.x1 bounds.y1 ≠ 0 := by
      intro h0
      have hparts := lor_eq_zero_parts _ _ h0
      rw [hparts.1, hparts.2] at hshare
      exact hshare rfl
    rw [render_clip_line]
    simp only []
    rw [if_neg hor, if_pos hshare]

/-- C4 witness: the segment (1,1)-(2,2) is fully inside the clip square
(0,0)-(10,10) and is accepted unchanged; the segment (-10,-10)-(-5,-5) has
outcodes sharing a set bit against the same clip square and is rejected. -/
theorem clip_line_trivial_cases_witness :
    ((0 : ℚ) ≤ 1 ∧ (1 : ℚ) ≤ 10 ∧ (0 : ℚ) ≤ 1 ∧ (1 : ℚ) ≤ 10 ∧
     (0 : ℚ) ≤ 2 ∧ (2 : ℚ) ≤ 10 ∧ (0 : ℚ) ≤ 2 ∧ (2 : ℚ) ≤ 10 →
      render_clip_line 1 ⟨1, 1, 2, 2⟩ ⟨0, 0, 10, 10⟩ = some (false, ⟨1, 1, 2, 2⟩)) ∧
    ((outcode ⟨0, 0, 10, 10⟩ (-10) (-10) &&& outcode ⟨0, 0, 10, 10⟩ (-5) (-5) ≠ 0) ∧
      render_clip_line 1 ⟨-10, -10, -5, -5⟩ ⟨0, 0, 10, 10⟩ =
        some (true, ⟨-10, -10, -5, -5⟩)) :=
  ⟨(clip_line_trivial_cases 1 ⟨1, 1, 2, 2⟩ ⟨0, 0, 10, 10⟩ (by decide)).1,
    by decide,
    (clip_line_trivial_cases 1 ⟨-10, -10, -5, -5⟩ ⟨0, 0, 10, 10⟩ (by decide)).2
      (by decide)⟩

/-- C5 counterexample: for the degenerate segment at (5,5) with stroke
width 2, the first returned quad corner is NOT at Euclidean distance
`w/2 = 1` from (5,5): its squared distance differs from `(2/2)^2`.  (It is
`(0.70710678 * 2)^2 ≈ 2`, not 1.) -/
theorem line_to_quad_corner_distance_counterexample :
    sqDist ((render_line_to_quad (fun q => q) ⟨5, 5, 5, 5⟩ 2 0).1.x0)
        ((render_line_to_quad (fun q => q) ⟨5, 5, 5, 5⟩ 2 0).1.y0) 5 5 ≠
      (2 / 2) ^ 2 := by
  norm_num [render_line_to_quad, sqDist]

/-- C5 amended: for a degenerate segment with both endpoints at (5,5) and
stroke width `w`, the four quad corners produced by `render_line_to_quad`
are each at Euclidean distance `0.70710678 * w` from (5,5) (the diagonal
unit-length constant of the source times the width, about `w/√2`), stated via
squared distances.  This holds for any square-root oracle and any length
extension, neither of which the degenerate branch consults. -/
theorem line_to_quad_degenerate_diamond (sqrtf : ℚ → ℚ) (w ext : ℚ) :
    sqDist ((render_line_to_quad sqrtf ⟨5, 5, 5, 5⟩ w ext).1.x0)
        ((render_line_to_quad sqrtf ⟨5, 5, 5, 5⟩ w ext).1.y0) 5 5 =
      (0.70710678 * w) ^ 2 ∧
    sqDist ((render_line_to_quad sqrtf ⟨5, 5, 5, 5⟩ w ext).1.x1)
        ((render_line_to_quad sqrtf ⟨5, 5, 5, 5⟩ w ext).1.y1) 5 5 =
      (0.70710678 * w) ^ 2 ∧
    sqDist ((render_line_to_quad sqrtf ⟨5, 5, 5, 5⟩ w ext).2.x0)
        ((render_line_to_quad sqrtf ⟨5, 5, 5, 5⟩ w ext).2.y0) 5 5 =
      (0.70710678 * w) ^ 2 ∧
    sqDist ((render_line_to_quad sqrtf ⟨5, 5, 5, 5⟩ w ext).2.x1)
        ((render_line_to_quad sqrtf ⟨5, 5, 5, 5⟩ w ext).2.y1) 5 5 =
      (0.70710678 * w) ^ 2 := by
  have hdeg : (5 : ℚ) - 5 = 0 := by norm_num
  refine ⟨?_, ?_, ?_, ?_⟩ <;>
    · rw [render_line_to_quad]
      simp only [hdeg]
      rw [if_pos ⟨trivial, trivial⟩, sqDist]
      ring

/-- Folding bitwise AND over a range never increases the accumulator. -/
theorem and_fold_le (g : Nat → Nat) (n a : Nat) :
    (List.range n).foldl (fun acc i => acc &&& g i) a ≤ a := by
  induction n with
  | zero => simp
  | succ n ih =>
    rw [List.range_succ, List.foldl_append]
    simp only [List.foldl_cons, List.foldl_nil]
    exact le_trans Nat.and_le_left ih

/-- A byte-valued AND fold stays at 0xff exactly when the start and every
folded value are 0xff. -/
theorem and_fold_eq_top_iff (g : Nat → Nat) (n a : Nat) (ha : a ≤ 255)
    (hg : ∀ i, g i ≤ 255) :
    (List.range n).foldl (fun acc i => acc &&& g i) a = 255 ↔
      a = 255 ∧ ∀ i < n, g i = 255 := by
  induction n with
  | zero => simp
  | succ n ih =>
    rw [List.range_succ, List.foldl_append]
    simp only [List.foldl_cons, List.foldl_nil]
    constructor
    · intro h
      have hle1 : (List.range n).foldl (fun acc i => acc &&& g i) a ≤ 255 :=
        le_trans (and_fold_le g n a) ha
      have hge : 255 ≤ (List.range n).foldl (fun acc i => acc &&& g i) a := by
        conv_lhs => rw [← h]
        exact Nat.and_le_left
      have hf : (List.range n).foldl (fun acc i => acc &&& g i) a = 255 := by omega
      have hgn : g n = 255 := by
        have hge2 : 255 ≤ g n := by
          conv_lhs => rw [← h]
          exact Nat.and_le_right
        have := hg n
        omega
      have hih := ih.mp hf
      refine ⟨hih.1, fun i hi => ?_⟩
      rcases Nat.lt_succ_iff_lt_or_eq.mp hi with hi2 | hi2
      · exact hih.2 i hi2
      · rw [hi2]; exact hgn
    · rintro ⟨ha255, hall⟩
      have hf : (List.range n).foldl (fun acc i => acc &&& g i) a = 255 :=
        ih.mpr ⟨ha255, fun i hi => hall i (by omega)⟩
      rw [hf, hall n (by omega)]
      decide

/-- The nested row/column AND fold never increases the accumulator. -/
theorem and_fold2_le (alpha : Nat → Nat → Nat) (wp : Nat → Nat) (n a : Nat) :
    (List.range n).foldl
      (fun acc y => (List.range (wp y)).foldl (fun acc x => acc &&& alpha x y) acc)
      a ≤ a := by
  induction n with
  | zero => simp
  | succ n ih =>
    rw [List.range_succ, List.foldl_append]
    simp only [List.foldl_cons, List.foldl_nil]
    exact le_trans (and_fold_le (fun x => alpha x n) (wp n) _) ih

/-- The nested row/column AND fold stays at 0xff exactly when the start and
every visited value are 0xff (the per-row width may depend on the row). -/
theorem and_fold2_eq_top_iff (alpha : Nat → Nat → Nat) (wp : Nat → Nat) (h a : Nat)
    (ha : a ≤ 255) (halpha : ∀ x y, alpha x y ≤ 255) :
    (List.range h).foldl
        (fun acc y => (List.range (wp y)).foldl (fun acc x => acc &&& alpha x y) acc)
        a = 255 ↔
      a = 255 ∧ ∀ y < h, ∀ x < wp y, alpha x y = 255 := by
  induction h with
  | zero => simp
  | succ n ih =>
    rw [List.range_succ, List.foldl_append]
    simp only [List.foldl_cons, List.foldl_nil]
    rw [and_fold_eq_top_iff (fun x => alpha x n) (wp n) _
      (le_trans (and_fold2_le alpha wp n a) ha) (fun i => halpha i n)]
    rw [ih]
    constructor
    · rintro ⟨⟨ha255, hall⟩, hn⟩
      refine ⟨ha255, fun y hy x hx => ?_⟩
      rcases Nat.lt_succ_iff_lt_or_eq.mp hy with hy2 | hy2
      · exact hall y hy2 x hx
      · subst hy2; exact hn x hx
    · rintro ⟨ha255, hall⟩
      exact ⟨⟨ha255, fun y hy x hx => hall y (by omega) x hx⟩,
        fun x hx => hall n (by omega) x hx⟩

/-- The triply nested pass/row/column AND fold of the alpha-overlay loop
stays within a byte. -/
theorem and_fold3_le (alpha : Nat → Nat → Nat → Nat) (wp hp : Nat → Nat) (n : Nat) :
    (List.range n).foldl
      (fun acc p =>
        (List.range (hp p)).foldl
          (fun acc y =>
            (List.range (wp p)).foldl (fun acc x => acc &&& alpha p x y) acc)
          acc)
      255 ≤ 255 := by
  induction n with
  | zero => simp
  | succ k ihk =>
    rw [List.range_succ, List.foldl_append]
    simp only [List.foldl_cons, List.foldl_nil]
    exact le_trans (and_fold2_le (fun x y => alpha k x y) (fun _ => wp k) (hp k) _) ihk

/-- The triply nested pass/row/column AND fold is 0xff exactly when every
visited value over every pass is 0xff. -/
theorem and_fold3_eq_top_iff (alpha : Nat → Nat → Nat → Nat)
    (wp hp : Nat → Nat) (np : Nat)
    (halpha : ∀ p x y, alpha p x y ≤ 255) :
    (List.range np).foldl
        (fun acc p =>
          (List.range (hp p)).foldl
            (fun acc y =>
              (List.range (wp p)).foldl (fun acc x => acc &&& alpha p x y) acc)
            acc)
        255 = 255 ↔
      ∀ p < np, ∀ y < hp p, ∀ x < wp p, alpha p x y = 255 := by
  induction np with
  | zero => simp
  | succ n ih =>
    rw [List.range_succ, List.foldl_append]
    simp only [List.foldl_cons, List.foldl_nil]
    rw [and_fold2_eq_top_iff (fun x y => alpha n x y) (fun _ => wp n) (hp n) _
      (and_fold3_le alpha wp hp n) (fun x y => halpha n x y)]
    rw [ih]
    constructor
    · rintro ⟨hall, hn⟩ p hplt y hy x hx
      rcases Nat.lt_succ_iff_lt_or_eq.mp hplt with hp2 | hp2
      · exact hall p hp2 y hy x hx
      · subst hp2; exact hn y hy x hx
    · intro hall
      exact ⟨fun p hplt y hy x hx => hall p (by omega) y hy x hx,
        fun y hy x hx => hall n (by omega) y hy x hx⟩

/-- A luma of byte channels is a byte. -/
theorem brightness_le (r g b : Nat) (hr : r ≤ 255) (hg : g ≤ 255) (hb : b ≤ 255) :
    brightness r g b ≤ 255 := by
  rw [brightness]
  omega

/-- The derived alpha of the RGB+alpha overlay branch is a byte. -/
theorem png_rgba_derived_alpha_le (image : Nat → Nat) (interlace : Bool)
    (width height pass x y : Nat) :
    png_rgba_derived_alpha image interlace width height pass x y ≤ 255 := by
  rw [png_rgba_derived_alpha]
  apply brightness_le <;>
    exact Nat.le_of_lt_succ (Nat.mod_lt _ (by norm_num))

/-- C6 counterexample: a 1x1 RGB+alpha image whose single pixel has RGB
(0,0,0) and source alpha byte 0xff.  Every source alpha byte equals 0xff,
yet the overlay loader reports hasAlpha = true, because the derived alpha
is the brightness of the RGB bytes (0), not the alpha byte. -/
theorem png_alpha_overlay_ignores_alpha_byte :
    (∀ i < 1 * 1, (fun j : Nat => if j % 4 = 3 then 0xff else 0) (4 * i + 3) = 0xff) ∧
      copy_png_alpha_rgba (fun j : Nat => if j % 4 = 3 then 0xff else 0) false 1 1 = true := by
  constructor
  · intro i hi
    interval_cases i
    decide
  · decide

/-- C6 amended: in alpha-overlay mode on an RGB+alpha image, interlaced or
not, hasAlpha is false exactly when the derived alpha of every pixel of
every interlace pass — the brightness of its RGB bytes, not its source
alpha byte — equals 0xff; equivalently, false is reported only when the
bitwise AND of all derived per-pixel alpha values over all passes is full
opacity. -/
theorem png_alpha_overlay_hasalpha_iff (image : Nat → Nat) (interlace : Bool)
    (width height : Nat) :
    copy_png_alpha_rgba image interlace width height = false ↔
      ∀ pass < (if interlace then 7 else 1),
        ∀ y < pass_height interlace height pass,
          ∀ x < pass_width interlace width pass,
            png_rgba_derived_alpha image interlace width height pass x y = 0xff := by
  rw [copy_png_alpha_rgba]
  simp only [bne_eq_false_iff_eq]
  exact and_fold3_eq_top_iff
    (fun pass x y => png_rgba_derived_alpha image interlace width height pass x y)
    (pass_width interlace width) (pass_height interlace height)
    (if interlace then 7 else 1)
    (fun pass x y => png_rgba_derived_alpha_le image interlace width height pass x y)

/-- C7: the sniffer probes PNG, then JPEG, then DIB, first match winning,
returns Unknown when no probe matches, and leaves the stream position at 0
on every outcome — in particular it returns the PNG tag whenever the PNG
header verification succeeds, and the Unknown tag when all probes fail. -/
theorem detect_image_probe_order (env : ProbeEnv) (pos : Nat) :
    render_detect_image env pos =
      (if env.pngOk then .png else if env.jpegOk then .jpeg
        else if env.dibOk then .msdib else .unknown, 0) ∧
    (env.pngOk = true → (render_detect_image env pos).1 = .png) ∧
    (env.pngOk = false ∧ env.jpegOk = false ∧ env.dibOk = false →
      (render_detect_image env pos).1 = .unknown) ∧
    (render_detect_image env pos).2 = 0 := by
  rcases env with ⟨p, j, d, pp, jp, dp⟩
  cases p <;> cases j <;> cases d <;>
    simp [render_detect_image]

/-- C7 witness: a stream whose PNG probe succeeds is classified PNG at
position 0, and a stream failing all three probes is classified Unknown at
position 0. -/
theorem detect_image_probe_order_witness :
    (render_detect_image ⟨true, false, false, 8, 2, 4⟩ 0).1 = .png ∧
      (render_detect_image ⟨false, false, false, 8, 2, 4⟩ 0).1 = .unknown ∧
      (render_detect_image ⟨true, false, false, 8, 2, 4⟩ 0).2 = 0 :=
  ⟨(detect_image_probe_order ⟨true, false, false, 8, 2, 4⟩ 0).2.1 rfl,
    (detect_image_probe_order ⟨false, false, false, 8, 2, 4⟩ 0).2.2.1
      ⟨rfl, rfl, rfl⟩,
    (detect_image_probe_order ⟨true, false, false, 8, 2, 4⟩ 0).2.2.2⟩

/-- C8: a stream reporting zero bytes on the very first refill makes the
refill callback raise the fatal `JERR_INPUT_EMPTY` (no input is fabricated),
and the overall decode then leaves the destination bitmap empty; a zero-byte
refill that is not the first instead synthesizes the two-byte end-of-image
marker `FF D9` with a warning. -/
theorem jpeg_first_fill_empty_fatal (firstRead : List Nat)
    (rest : Except JpegErr JBitmap) (hempty : firstRead = []) :
    do_fill true firstRead = .error .inputEmpty ∧
    render_load_jpeg_result firstRead rest = JBitmap.empty ∧
    do_fill false firstRead =
      .ok { buffer := [0xff, 0xd9], bytes_in_buffer := 2, warned := true,
            start_of_file := false } := by
  subst hempty
  exact ⟨rfl, rfl, rfl⟩

/-- C8 witness: the empty first read is fatal and yields an empty bitmap
even when the rest of the decode would have produced a 3x3 image. -/
theorem jpeg_first_fill_empty_fatal_witness :
    do_fill true [] = .error .inputEmpty ∧
    render_load_jpeg_result [] (.ok ⟨3, 3⟩) = JBitmap.empty ∧
    do_fill false [] =
      .ok { buffer := [0xff, 0xd9], bytes_in_buffer := 2, warned := true,
            start_of_file := false } :=
  jpeg_first_fill_empty_fatal [] (.ok ⟨3, 3⟩) rfl

/-- C9: whatever the external decoder and the allocations do, the JPEG
adapter returns normally with the decoder state destroyed and every
allocated scratch buffer freed; and whenever the abrupt error exit was
taken (a diagnostic was captured), the captured message is that of the decoder
and the destination bitmap is left empty — no partial bitmap survives a
failure. -/
theorem load_jpeg_abrupt_error_contained (dec : JpegDecoder)
    (bitmapAllocOk outerOk innerOk : Bool) :
    (render_load_jpeg_model dec bitmapAllocOk outerOk innerOk).returnedNormally = true ∧
    (render_load_jpeg_model dec bitmapAllocOk outerOk innerOk).decoderReleased = true ∧
    (render_load_jpeg_model dec bitmapAllocOk outerOk innerOk).outerFreed =
      (render_load_jpeg_model dec bitmapAllocOk outerOk innerOk).outerAllocated ∧
    (render_load_jpeg_model dec bitmapAllocOk outerOk innerOk).innerFreed =
      (render_load_jpeg_model dec bitmapAllocOk outerOk innerOk).innerAllocated ∧
    (∀ msg, (render_load_jpeg_model dec bitmapAllocOk outerOk innerOk).diagnostic = some msg →
      (render_load_jpeg_model dec bitmapAllocOk outerOk innerOk).bitmap = JBitmap.empty ∧
        msg = dec.message) := by
  simp only [render_load_jpeg_model]
  split_ifs <;> simp_all [jpeg_abrupt_exit]

/-- C9 witness: a decoder failing abruptly during the header read leaves a
captured diagnostic and an empty bitmap. -/
theorem load_jpeg_abrupt_error_contained_witness :
    (render_load_jpeg_model ⟨some .readHeader, 7, 5, 3, "bad marker"⟩ true true true).diagnostic =
        some "bad marker" ∧
      (render_load_jpeg_model ⟨some .readHeader, 7, 5, 3, "bad marker"⟩ true true true).bitmap =
        JBitmap.empty :=
  ⟨rfl,
    ((load_jpeg_abrupt_error_contained ⟨some .readHeader, 7, 5, 3, "bad marker"⟩
        true true true).2.2.2.2 "bad marker" rfl).1⟩

end Rendutil
